import Mathlib

/-!
Verification of the asynchronous submission pipeline of the D-Wave cloud
client (`dwave/cloud/client.py`).  The definitions below are a shallow
embedding of the relevant functions of the source: the poll back-off
scheduler (`Client._poll`), the poll worker's response handling
(`Client._do_poll_problems`), the status dispatcher
(`Client._handle_problem_status`), the cancel protocol, the submission
batch drain (`Client._do_submit_problems`), the solver filter/sort query
surface (`Client.get_solvers`), and the poll frame builder.  Python
numbers (timestamps, back-off seconds) are modelled as rationals,
fallible paths as `Option`, and raised exceptions as explicit values.
-/

namespace DwaveClient

/-- Client._POLL_BACKOFF_MIN (client.py line 155), in seconds. -/
def POLL_BACKOFF_MIN : ℚ := 1

/-- Client._POLL_BACKOFF_MAX (client.py line 156), in seconds. -/
def POLL_BACKOFF_MAX : ℚ := 60

/-- Client._SUBMIT_BATCH_SIZE (client.py line 145). -/
def SUBMIT_BATCH_SIZE : ℕ := 20

/-- Client._STATUS_QUERY_SIZE (client.py line 146). -/
def STATUS_QUERY_SIZE : ℕ := 100

/-- Client._POLL_GROUP_TIMEFRAME (client.py line 162), in seconds. -/
def POLL_GROUP_TIMEFRAME : ℚ := 2

/-- Client.STATUS_PENDING (client.py line 132). -/
def STATUS_PENDING : String := "PENDING"

/-- Client.STATUS_IN_PROGRESS (client.py line 131). -/
def STATUS_IN_PROGRESS : String := "IN_PROGRESS"

/-- Client.STATUS_COMPLETE (client.py line 133). -/
def STATUS_COMPLETE : String := "COMPLETED"

/-- Client.STATUS_CANCELLED (client.py line 135). -/
def STATUS_CANCELLED : String := "CANCELLED"

/-- Exception values the client can store on a future through
`Future._set_error` (from `dwave/cloud/exceptions.py` plus the builtin
`IOError`); `ioError e` models `IOError(e)`, i.e. an I/O error wrapping
an underlying cause. -/
inductive PyExc where
  | requestTimeout
  | pollingTimeout
  | solverAuth
  | solverFailure (msg : String)
  | solverOffline (msg : String)
  | invalidResponse (field : String)
  | canceledFuture
  | httpError (code : ℕ)
  | parseError
  | ioError (inner : PyExc)
deriving DecidableEq

/-- The error taxonomy of the specification (§7): the kind of an error is
determined by the outermost exception type stored on the future. -/
inductive ErrorKind where
  | timeout
  | pollingTimeout
  | auth
  | solverFailure
  | solverOffline
  | invalidResponse
  | cancelled
  | io
deriving DecidableEq

/-- Classify a stored exception by its outermost type. -/
def PyExc.kind : PyExc → ErrorKind
  | .requestTimeout => .timeout
  | .pollingTimeout => .pollingTimeout
  | .solverAuth => .auth
  | .solverFailure _ => .solverFailure
  | .solverOffline _ => .solverOffline
  | .invalidResponse _ => .invalidResponse
  | .canceledFuture => .cancelled
  | .httpError _ => .io
  | .parseError => .io
  | .ioError _ => .io

/-- The back-off update performed at the top of Client._poll (client.py
lines 1184-1191): `None` (first poll) becomes `_POLL_BACKOFF_MIN`; a
previous back-off `b` becomes `max(_POLL_BACKOFF_MIN, min(b * 2,
_POLL_BACKOFF_MAX))`. -/
def pollUpdateBackoff : Option ℚ → ℚ
  | none => POLL_BACKOFF_MIN
  | some b => max POLL_BACKOFF_MIN (min (b * 2) POLL_BACKOFF_MAX)

/-- The sequence of back-off values used by a future that keeps being
re-enqueued through Client._poll: `backoffSeq n` is the back-off used for
its `n + 1`-st poll. -/
def backoffSeq : ℕ → ℚ
  | 0 => pollUpdateBackoff none
  | n + 1 => pollUpdateBackoff (some (backoffSeq n))

/-- Result of one run of Client._poll over a single future: the back-off
written to `future._poll_backoff`, and the priority-queue key `at` the
future was enqueued with, or `none` when `PollingTimeout` was raised
instead of enqueueing (client.py lines 1201-1208). -/
structure PollStepResult where
  newBackoff : ℚ
  enqueuedAt : Option ℚ
deriving DecidableEq

/-- Client._poll (client.py lines 1181-1208).  `t1` is the reading of
`time.time()` at line 1194, `t2` the reading of `utcnow()` at line 1196
as a POSIX timestamp, and `tc` the future's `time_created` timestamp.
The back-off is updated first; the future is enqueued at `t1 + backoff`
unless `polling_timeout` is configured and the future's age at that
scheduled time would exceed it, in which case `PollingTimeout` is raised
(modelled by `enqueuedAt = none`). -/
def pollStep (pollingTimeout : Option ℚ) (backoff : Option ℚ) (t1 t2 tc : ℚ) : PollStepResult :=
  let nb := pollUpdateBackoff backoff
  let sched := t1 + nb
  let futureAge := t2 - tc
  let futureAgeOnNextPoll := futureAge + (sched - t2)
  match pollingTimeout with
  | some timeout =>
      if futureAgeOnNextPoll > timeout then ⟨nb, none⟩ else ⟨nb, some sched⟩
  | none => ⟨nb, some sched⟩

/-- A SAPI status record (the `message` dict of
Client._handle_problem_status).  Field presence is modelled with
`Option`/`Bool`; timestamp strings are carried as already-parsed
rational timestamps (the output of `parse_datetime`). -/
structure Message where
  errorCode : Option ℤ := none
  errorMsg : Option String := none
  status : Option String := none
  id : Option String := none
  submittedOn : Option ℚ := none
  solvedOn : Option ℚ := none
  etaMinTs : Option ℚ := none
  etaMaxTs : Option ℚ := none
  answer : Bool := false
  errorMessage : Option String := none
deriving DecidableEq

/-- The mutable per-future fields read and written by
Client._handle_problem_status and Client._poll. -/
structure FutureState where
  id : Option String := none
  remoteStatus : Option String := none
  cancelRequested : Bool := false
  cancelSent : Bool := false
  timeReceived : Option ℚ := none
  timeSolved : Option ℚ := none
  etaMin : Option ℚ := none
  etaMax : Option ℚ := none
  pollBackoff : Option ℚ := none
  timeCreated : ℚ := 0
deriving DecidableEq

/-- What Client._handle_problem_status does with the future: settle it
with the decoded result (`future._set_message`), enqueue it on the
result-fetch queue (`Client._load`), enqueue it on the poll queue
(`Client._poll`, with the priority key), or settle it with an error
(`future._set_error`). -/
inductive HandleAction where
  | setMessage
  | load
  | enqueuePoll (sched : ℚ)
  | setError (e : PyExc)
deriving DecidableEq

/-- Full outcome of one Client._handle_problem_status call: the updated
future fields, the routing action, and the id enqueued on the cancel
queue, if any. -/
structure HandleResult where
  future : FutureState
  action : HandleAction
  cancelEnqueued : Option String
deriving DecidableEq

/-- Python's substring test `'solver is offline' in errmsg.lower()` at
client.py line 1108, modelled through `String.splitOn` (the pattern
occurs iff splitting on it yields more than one part). -/
def offlineSentinel (errmsg : String) : Bool :=
  (errmsg.toLower.splitOn "solver is offline").length != 1

/-- Client._handle_problem_status (client.py lines 1030-1116).  `pt` is
the client's `polling_timeout`, `t1`/`t2` the clock readings used by
Client._poll when the future is re-enqueued.  The translation follows
the source order: batch-mode error records first, then missing-field
checks, then the id/status update, the single-cancel lock block, the
timing fields, and finally terminal routing; an exception raised
anywhere is caught at line 1113 and stored on the future. -/
def handleProblemStatus (pt : Option ℚ) (t1 t2 : ℚ) (msg : Message) (f : FutureState) :
    HandleResult :=
  match msg.errorCode, msg.errorMsg with
  | some _, some m => ⟨f, .setError (.solverFailure m), none⟩
  | _, _ =>
    match msg.status with
    | none => ⟨f, .setError (.invalidResponse "status"), none⟩
    | some status =>
      match msg.id with
      | none => ⟨f, .setError (.invalidResponse "id"), none⟩
      | some mid =>
        let f1 : FutureState := { f with id := some mid, remoteStatus := some status }
        let cancelEnq : Option String :=
          if f1.cancelRequested ∧ ¬f1.cancelSent ∧ status = STATUS_PENDING then some mid
          else none
        let f2 : FutureState :=
          if f1.cancelRequested then { f1 with cancelSent := true } else f1
        let f3 : FutureState := { f2 with
          timeReceived :=
            if f2.timeReceived = none ∧ msg.submittedOn.isSome then msg.submittedOn
            else f2.timeReceived,
          timeSolved :=
            if f2.timeSolved = none ∧ msg.solvedOn.isSome then msg.solvedOn
            else f2.timeSolved,
          etaMin :=
            if f2.etaMin = none ∧ msg.etaMinTs.isSome then msg.etaMinTs else f2.etaMin,
          etaMax :=
            if f2.etaMax = none ∧ msg.etaMaxTs.isSome then msg.etaMaxTs else f2.etaMax }
        if status = STATUS_COMPLETE then
          if msg.answer then ⟨f3, .setMessage, cancelEnq⟩
          else ⟨f3, .load, cancelEnq⟩
        else if status = STATUS_IN_PROGRESS ∨ status = STATUS_PENDING then
          let r := pollStep pt f3.pollBackoff t1 t2 f3.timeCreated
          let f4 := { f3 with pollBackoff := some r.newBackoff }
          match r.enqueuedAt with
          | some sched => ⟨f4, .enqueuePoll sched, cancelEnq⟩
          | none => ⟨f4, .setError .pollingTimeout, cancelEnq⟩
        else if status = STATUS_CANCELLED then
          ⟨f3, .setError .canceledFuture, cancelEnq⟩
        else
          let errmsg := msg.errorMessage.getD "An unknown error has occurred."
          if offlineSentinel errmsg then ⟨f3, .setError (.solverOffline errmsg), cancelEnq⟩
          else ⟨f3, .setError (.solverFailure errmsg), cancelEnq⟩

/-- A member of the poll frame as seen by the 5xx-recovery branch of
Client._do_poll_problems: its remote id, its current `_poll_backoff`,
and its `time_created` timestamp. -/
structure FrameFuture where
  id : String
  backoff : Option ℚ
  timeCreated : ℚ
deriving DecidableEq

/-- The re-enqueue loop `for future in frame_futures.values():
self._poll(future)` in the 5xx branch of Client._do_poll_problems
(client.py lines 1299-1302).  Returns the entries actually put on the
poll queue, as `(id, new back-off, scheduled time)`, and whether
`PollingTimeout` was raised by some `_poll` call (which aborts the loop,
leaving the remaining futures not re-enqueued). -/
def repollLoop (pt : Option ℚ) (t1 t2 : ℚ) : List FrameFuture → List (String × ℚ × ℚ) × Bool
  | [] => ([], false)
  | f :: rest =>
    let r := pollStep pt f.backoff t1 t2 f.timeCreated
    match r.enqueuedAt with
    | none => ([], true)
    | some sched =>
      let m := repollLoop pt t1 t2 rest
      ((f.id, r.newBackoff, sched) :: m.1, m.2)

/-- The HTTP result of the poll GET in Client._do_poll_problems: a
network timeout (requests.exceptions.Timeout), or a response with a
status code, a flag telling whether `response.json()` parses, and the
parsed status records. -/
inductive PollHttpResult where
  | timeout
  | response (statusCode : ℕ) (parseOk : Bool) (records : List Message)
deriving DecidableEq

/-- Net effect of the `try` block at client.py lines 1281-1321 on the
poll frame: which members were re-enqueued on the poll queue, the error
value stored on every frame member by the `except` handler (if it ran),
and the status records forwarded one by one to
Client._handle_problem_status on success. -/
structure PollFrameOutcome where
  enqueued : List (String × ℚ × ℚ)
  settledAll : Option PyExc
  dispatchRecords : List Message
deriving DecidableEq

/-- Response handling of Client._do_poll_problems (client.py lines
1281-1321): network timeout raises RequestTimeout; 401 raises
SolverAuthenticationError; 5xx re-enqueues every frame member through
Client._poll without settling anyone; any other HTTP error (≥ 400) or a
body that fails to parse raises; on success the records are dispatched.
The `except BaseException` handler (lines 1313-1318) wraps every
non-auth exception in `IOError` and then stores `IOError(exception)` on
every frame member. -/
def handlePollHttp (pt : Option ℚ) (t1 t2 : ℚ) (frame : List FrameFuture) :
    PollHttpResult → PollFrameOutcome
  | .timeout => ⟨[], some (.ioError (.ioError .requestTimeout)), []⟩
  | .response code parseOk records =>
    if code = 401 then ⟨[], some (.ioError .solverAuth), []⟩
    else if 500 ≤ code ∧ code < 600 then
      let m := repollLoop pt t1 t2 frame
      if m.2 then ⟨m.1, some (.ioError (.ioError .pollingTimeout)), []⟩
      else ⟨m.1, none, []⟩
    else if 400 ≤ code then ⟨[], some (.ioError (.ioError (.httpError code))), []⟩
    else if parseOk = false then ⟨[], some (.ioError (.ioError .parseError)), []⟩
    else ⟨[], none, records⟩

/-- Bounds of the back-off sequence: every value lies in
`[POLL_BACKOFF_MIN, POLL_BACKOFF_MAX]`. -/
lemma backoffSeq_bounds (n : ℕ) :
    POLL_BACKOFF_MIN ≤ backoffSeq n ∧ backoffSeq n ≤ POLL_BACKOFF_MAX := by
  induction n with
  | zero =>
      constructor
      · simp [backoffSeq, pollUpdateBackoff]
      · norm_num [backoffSeq, pollUpdateBackoff, POLL_BACKOFF_MIN, POLL_BACKOFF_MAX]
  | succ n ih =>
      constructor
      · simp [backoffSeq, pollUpdateBackoff]
      · have h2 : min (backoffSeq n * 2) POLL_BACKOFF_MAX ≤ POLL_BACKOFF_MAX := min_le_right _ _
        have h1 : POLL_BACKOFF_MIN ≤ POLL_BACKOFF_MAX := by
          norm_num [POLL_BACKOFF_MIN, POLL_BACKOFF_MAX]
        simpa [backoffSeq, pollUpdateBackoff] using max_le h1 h2

/-- The back-off sequence is non-decreasing. -/
lemma backoffSeq_mono (n : ℕ) : backoffSeq n ≤ backoffSeq (n + 1) := by
  obtain ⟨hlo, hhi⟩ := backoffSeq_bounds n
  have hb1 : (1 : ℚ) ≤ backoffSeq n := by simpa [POLL_BACKOFF_MIN] using hlo
  have hb60 : backoffSeq n ≤ 60 := by simpa [POLL_BACKOFF_MAX] using hhi
  show backoffSeq n ≤ pollUpdateBackoff (some (backoffSeq n))
  rcases le_or_lt (backoffSeq n * 2) 60 with h | h
  · have hmin : min (backoffSeq n * 2) (60 : ℚ) = backoffSeq n * 2 := min_eq_left h
    have : backoffSeq n ≤ backoffSeq n * 2 := by linarith
    calc backoffSeq n ≤ backoffSeq n * 2 := this
      _ = min (backoffSeq n * 2) (60 : ℚ) := hmin.symm
      _ ≤ max POLL_BACKOFF_MIN (min (backoffSeq n * 2) (60 : ℚ)) := le_max_right _ _
      _ = pollUpdateBackoff (some (backoffSeq n)) := by
            simp [pollUpdateBackoff, POLL_BACKOFF_MAX]
  · have hmin : min (backoffSeq n * 2) (60 : ℚ) = 60 := min_eq_right h.le
    calc backoffSeq n ≤ 60 := hb60
      _ = min (backoffSeq n * 2) (60 : ℚ) := hmin.symm
      _ ≤ max POLL_BACKOFF_MIN (min (backoffSeq n * 2) (60 : ℚ)) := le_max_right _ _
      _ = pollUpdateBackoff (some (backoffSeq n)) := by
            simp [pollUpdateBackoff, POLL_BACKOFF_MAX]

/-- C1: the poll back-off set by Client._poll is `POLL_BACKOFF_MIN`
(1 s) on the first poll and `clamp(previous × 2, POLL_BACKOFF_MIN,
POLL_BACKOFF_MAX)` on every subsequent poll; consequently the sequence
of back-offs used for a future lies in [1, 60] seconds, is
non-decreasing, and after three polls the back-off equals 4 s. -/
theorem C1_backoff_policy :
    pollUpdateBackoff none = POLL_BACKOFF_MIN ∧
    (∀ b : ℚ, pollUpdateBackoff (some b) =
      max POLL_BACKOFF_MIN (min (b * 2) POLL_BACKOFF_MAX)) ∧
    (∀ n : ℕ, (1 : ℚ) ≤ backoffSeq n ∧ backoffSeq n ≤ 60) ∧
    (∀ n : ℕ, backoffSeq n ≤ backoffSeq (n + 1)) ∧
    backoffSeq 0 = 1 ∧ backoffSeq 2 = 4 := by
  refine ⟨rfl, fun b => rfl, fun n => ?_, backoffSeq_mono, ?_, ?_⟩
  · have h := backoffSeq_bounds n
    constructor
    · simpa [POLL_BACKOFF_MIN] using h.1
    · simpa [POLL_BACKOFF_MAX] using h.2
  · simp [backoffSeq, pollUpdateBackoff, POLL_BACKOFF_MIN]
  · norm_num [backoffSeq, pollUpdateBackoff, POLL_BACKOFF_MIN, POLL_BACKOFF_MAX]

/-- The back-off stored by Client._poll is always the clamped update of
the previous one, whether or not PollingTimeout is then raised. -/
lemma pollStep_newBackoff (pt : Option ℚ) (b : Option ℚ) (t1 t2 tc : ℚ) :
    (pollStep pt b t1 t2 tc).newBackoff = pollUpdateBackoff b := by
  unfold pollStep
  cases pt with
  | none => rfl
  | some timeout => dsimp only; split <;> rfl

/-- When Client._poll does enqueue, the priority key is the current time
plus the new back-off. -/
lemma pollStep_enqueuedAt (pt : Option ℚ) (b : Option ℚ) (t1 t2 tc : ℚ) :
    (pollStep pt b t1 t2 tc).enqueuedAt = none ∨
    (pollStep pt b t1 t2 tc).enqueuedAt = some (t1 + pollUpdateBackoff b) := by
  unfold pollStep
  cases pt with
  | none => exact Or.inr rfl
  | some timeout =>
      dsimp only
      split
      · exact Or.inl rfl
      · exact Or.inr rfl

/-- With no polling timeout configured, Client._poll never raises. -/
lemma pollStep_none_enqueues (b : Option ℚ) (t1 t2 tc : ℚ) :
    (pollStep none b t1 t2 tc).enqueuedAt = some (t1 + pollUpdateBackoff b) := rfl

/-- With no polling timeout configured, the 5xx re-enqueue loop never
raises PollingTimeout. -/
lemma repollLoop_none_not_raised (t1 t2 : ℚ) :
    ∀ frame : List FrameFuture, (repollLoop none t1 t2 frame).2 = false := by
  intro frame
  induction frame with
  | nil => rfl
  | cons f rest ih =>
      simp only [repollLoop, pollStep_none_enqueues]
      exact ih

/-- If the 5xx re-enqueue loop does not raise, it re-enqueues every frame
member in order, with the clamped doubled back-off and the matching
priority key. -/
lemma repollLoop_eq_of_not_raised (pt : Option ℚ) (t1 t2 : ℚ) :
    ∀ frame : List FrameFuture, (repollLoop pt t1 t2 frame).2 = false →
    (repollLoop pt t1 t2 frame).1 =
      frame.map (fun f => (f.id, pollUpdateBackoff f.backoff, t1 + pollUpdateBackoff f.backoff)) := by
  intro frame
  induction frame with
  | nil => intro _; rfl
  | cons f rest ih =>
      intro hnr
      rcases pollStep_enqueuedAt pt f.backoff t1 t2 f.timeCreated with h | h
      · simp only [repollLoop, h] at hnr
        exact Bool.noConfusion hnr
      · simp only [repollLoop, h] at hnr
        simp only [repollLoop, h, List.map_cons]
        rw [pollStep_newBackoff, ih hnr]

/-- C7: a status record that contains both `error_code` and `error_msg`
settles the future with a solver-failure error carrying the
`error_msg`, touching nothing else. -/
theorem C7_immediate_rejection (pt : Option ℚ) (t1 t2 : ℚ) (msg : Message) (f : FutureState)
    (c : ℤ) (m : String) (hc : msg.errorCode = some c) (hm : msg.errorMsg = some m) :
    handleProblemStatus pt t1 t2 msg f =
      ⟨f, .setError (.solverFailure m), none⟩ := by
  unfold handleProblemStatus
  rw [hc, hm]

/-- C7 witness: the scenario S6 reply settles the future with
solver-failure carrying the message. -/
theorem C7_immediate_rejection_witness :
    handleProblemStatus none 0 0
        { errorCode := some 400, errorMsg := some "Missing parameter num_reads" } {} =
      ⟨{}, .setError (.solverFailure "Missing parameter num_reads"), none⟩ :=
  C7_immediate_rejection none 0 0 _ {} 400 "Missing parameter num_reads" rfl rfl

/-- C3 counterexample: with `polling_timeout = 0` configured and already
exceeded, a 503 poll response leads Client._do_poll_problems to settle
the frame member with an I/O error (an `IOError` wrapping an `IOError`
wrapping the `PollingTimeout`), not with a polling-timeout error, and
the future is indeed not re-enqueued. -/
theorem C3_counterexample :
    ((handlePollHttp (some 0) 100 100 [⟨"1", none, 100⟩]
        (.response 503 true [])).settledAll.map PyExc.kind = some ErrorKind.io) ∧
    ErrorKind.io ≠ ErrorKind.pollingTimeout ∧
    (handlePollHttp (some 0) 100 100 [⟨"1", none, 100⟩]
        (.response 503 true [])).enqueued = [] := by
  have hps : pollStep (some 0) (none : Option ℚ) 100 100 100 = ⟨1, none⟩ := by
    norm_num [pollStep, pollUpdateBackoff, POLL_BACKOFF_MIN]
  refine ⟨?_, by decide, ?_⟩ <;> simp [handlePollHttp, repollLoop, hps, PyExc.kind]

/-- C3 (amended): when a future's age at the next scheduled poll would
exceed the configured `polling_timeout`, Client._poll raises instead of
enqueueing; when this happens inside Client._handle_problem_status (the
normal dispatch path) the future is settled with the polling-timeout
error; but when it happens inside the 5xx-recovery branch of
Client._do_poll_problems, every frame member is settled with an I/O
error wrapping the PollingTimeout instead. -/
theorem C3_polling_timeout :
    (∀ (pt : Option ℚ) (t1 t2 : ℚ) (msg : Message) (f : FutureState) (s mid : String),
      msg.errorCode = none → msg.status = some s → msg.id = some mid →
      (s = STATUS_IN_PROGRESS ∨ s = STATUS_PENDING) →
      (pollStep pt f.pollBackoff t1 t2 f.timeCreated).enqueuedAt = none →
      (handleProblemStatus pt t1 t2 msg f).action = .setError .pollingTimeout) ∧
    (∀ (pt : Option ℚ) (t1 t2 : ℚ) (frame : List FrameFuture) (code : ℕ) (pk : Bool)
      (records : List Message),
      500 ≤ code → code < 600 → (repollLoop pt t1 t2 frame).2 = true →
      (handlePollHttp pt t1 t2 frame (.response code pk records)).settledAll =
        some (.ioError (.ioError .pollingTimeout))) := by
  constructor
  · intro pt t1 t2 msg f s mid hec hst hid hdisj hto
    rcases hdisj with h | h <;> subst h <;>
      simp [handleProblemStatus, hec, hst, hid, STATUS_IN_PROGRESS, STATUS_PENDING,
        STATUS_COMPLETE, apply_ite, hto]
  · intro pt t1 t2 frame code pk records h5 h6 hr
    have hne : ¬(code = 401) := by omega
    simp [handlePollHttp, hne, h5, h6, hr]

/-- C3 witness: both amended branches at concrete inputs — the dispatch
path settles with polling-timeout, the 5xx path with the wrapped I/O
error. -/
theorem C3_polling_timeout_witness :
    (handleProblemStatus (some 0) 100 100 { status := some "PENDING", id := some "1" }
        { timeCreated := 100 }).action = .setError .pollingTimeout ∧
    (handlePollHttp (some 0) 300 300 [⟨"2", none, 300⟩] (.response 502 true [])).settledAll =
      some (.ioError (.ioError .pollingTimeout)) := by
  have hps1 : pollStep (some 0) (none : Option ℚ) 100 100 100 = ⟨1, none⟩ := by
    norm_num [pollStep, pollUpdateBackoff, POLL_BACKOFF_MIN]
  have hps2 : pollStep (some 0) (none : Option ℚ) 300 300 300 = ⟨1, none⟩ := by
    norm_num [pollStep, pollUpdateBackoff, POLL_BACKOFF_MIN]
  exact ⟨C3_polling_timeout.1 (some 0) 100 100 _ _ "PENDING" "1" rfl rfl rfl (Or.inr rfl)
      (by simp [hps1]),
    C3_polling_timeout.2 (some 0) 300 300 _ 502 true [] (by decide) (by decide)
      (by simp [repollLoop, hps2])⟩

/-- C2 counterexample: with `polling_timeout = 0` configured and
exceeded, a 500 poll response settles the (sole) frame member — the
`except` handler stores an error on it — and re-enqueues nothing, so it
is not the case that every frame member is re-enqueued with none
settled. -/
theorem C2_counterexample :
    (handlePollHttp (some 0) 200 200 [⟨"7", none, 200⟩]
        (.response 500 true [])).settledAll ≠ none ∧
    (handlePollHttp (some 0) 200 200 [⟨"7", none, 200⟩]
        (.response 500 true [])).enqueued = [] := by
  have hps : pollStep (some 0) (none : Option ℚ) 200 200 200 = ⟨1, none⟩ := by
    norm_num [pollStep, pollUpdateBackoff, POLL_BACKOFF_MIN]
  constructor <;> simp [handlePollHttp, repollLoop, hps]

/-- C2 (amended): on a 5xx poll response, provided re-enqueueing raises
no PollingTimeout (in particular whenever `polling_timeout` is unset),
every frame member is re-enqueued through the normal Client._poll path —
with its back-off grown by the clamped doubling — and no frame member is
settled by that response; if a PollingTimeout is raised, every frame
member is settled with an I/O error instead. -/
theorem C2_5xx_transient :
    (∀ (pt : Option ℚ) (t1 t2 : ℚ) (frame : List FrameFuture) (code : ℕ) (pk : Bool)
      (records : List Message),
      500 ≤ code → code < 600 → (repollLoop pt t1 t2 frame).2 = false →
      (handlePollHttp pt t1 t2 frame (.response code pk records)).settledAll = none ∧
      (handlePollHttp pt t1 t2 frame (.response code pk records)).enqueued =
        frame.map (fun f => (f.id, pollUpdateBackoff f.backoff, t1 + pollUpdateBackoff f.backoff))) ∧
    (∀ (t1 t2 : ℚ) (frame : List FrameFuture), (repollLoop none t1 t2 frame).2 = false) := by
  constructor
  · intro pt t1 t2 frame code pk records h5 h6 hnr
    have hne : ¬(code = 401) := by omega
    constructor
    · simp [handlePollHttp, hne, h5, h6, hnr]
    · simp [handlePollHttp, hne, h5, h6, hnr, repollLoop_eq_of_not_raised pt t1 t2 frame hnr]
  · exact fun t1 t2 frame => repollLoop_none_not_raised t1 t2 frame

/-- C2 witness: with no polling timeout, a 503 response re-enqueues the
single frame member (back-off grown from 2 s to 4 s) and settles
nothing. -/
theorem C2_5xx_transient_witness :
    (handlePollHttp none 0 0 [⟨"9", some 2, 0⟩] (.response 503 true [])).settledAll = none ∧
    (handlePollHttp none 0 0 [⟨"9", some 2, 0⟩] (.response 503 true [])).enqueued =
      [("9", (4 : ℚ), (4 : ℚ))] := by
  have h := C2_5xx_transient.1 none 0 0 [⟨"9", some 2, 0⟩] 503 true []
    (by decide) (by decide) (C2_5xx_transient.2 0 0 [⟨"9", some 2, 0⟩])
  refine ⟨h.1, ?_⟩
  rw [h.2]
  norm_num [pollUpdateBackoff, POLL_BACKOFF_MIN, POLL_BACKOFF_MAX]

/-- Per-future cancel-protocol state: the two flags guarded by
`Future._single_cancel_lock`, whether the future is already done, and
whether the remote id is known (`Future.id`). -/
structure CancelState where
  cancelRequested : Bool := false
  cancelSent : Bool := false
  isDone : Bool := false
  remoteId : Option String := none
deriving DecidableEq

/-- The serialized events that touch a future's cancel state: the
lock-guarded body of `Future.cancel()`, the lock-guarded cancel block of
Client._handle_problem_status (together with the id assignment just
above it, client.py lines 1059-1072), and settlement of the future.  The
per-future single-cancel lock serializes the first two, which is what
makes a linear event sequence a faithful model. -/
inductive CancelEvent where
  | userCancel
  | dispatch (status : String) (mid : String)
  | settle
deriving DecidableEq

/-- Modelled from the spec: `Future.cancel()` lives in
dwave/cloud/computation.py, which is not under src/.  Spec §4.1: cancel
is a no-op on a done future and idempotent (the second call is a no-op);
§4.6 phase A: if the remote id is already known, enqueue `(remote_id,
future)` directly — recording the cancel as sent, which the at-most-once
guarantee stated in §4.6 presupposes; §4.6 phase B: otherwise set
`cancel_requested` under the single-cancel lock and defer to the status
dispatcher.  Returns the new state and the id enqueued on the cancel
queue, if any. -/
def userCancelStep (s : CancelState) : CancelState × Option String :=
  if s.isDone then (s, none)
  else if s.cancelRequested then (s, none)
  else
    match s.remoteId with
    | some mid => ({ s with cancelRequested := true, cancelSent := true }, some mid)
    | none => ({ s with cancelRequested := true }, none)

/-- The dispatcher side of the cancel protocol (client.py lines
1059-1072): `future.id` is recorded from the message, then under the
single-cancel lock a cancel is enqueued iff `cancel_requested` is set,
`cancel_sent` is not yet set and the reported status is PENDING, after
which `cancel_sent` is set whenever `cancel_requested` is. -/
def dispatchCancelStep (s : CancelState) (status mid : String) : CancelState × Option String :=
  let s1 := { s with remoteId := some mid }
  if s1.cancelRequested then
    if ¬s1.cancelSent ∧ status = STATUS_PENDING then
      ({ s1 with cancelSent := true }, some mid)
    else ({ s1 with cancelSent := true }, none)
  else (s1, none)

/-- One serialized event. -/
def cancelStep (s : CancelState) : CancelEvent → CancelState × Option String
  | .userCancel => userCancelStep s
  | .dispatch status mid => dispatchCancelStep s status mid
  | .settle => ({ s with isDone := true }, none)

/-- Number of cancel-queue enqueues produced by a serialized sequence of
events starting in state `s`. -/
def cancelEnqueues (s : CancelState) : List CancelEvent → ℕ
  | [] => 0
  | e :: evs =>
    let r := cancelStep s e
    (if (r.2).isSome then 1 else 0) + cancelEnqueues r.1 evs

/-- A step that enqueues a cancel leaves both flags set. -/
lemma cancelStep_enqueue_flags (s : CancelState) (e : CancelEvent) :
    (cancelStep s e).2 ≠ none →
    (cancelStep s e).1.cancelSent = true ∧ (cancelStep s e).1.cancelRequested = true := by
  obtain ⟨cr, cs, dn, rid⟩ := s
  cases e with
  | userCancel =>
      cases cr <;> cases cs <;> cases dn <;> cases rid <;>
        simp [cancelStep, userCancelStep]
  | dispatch status mid =>
      cases cr <;> cases cs <;>
        by_cases hp : status = STATUS_PENDING <;>
          simp [cancelStep, dispatchCancelStep, hp]
  | settle => simp [cancelStep]

/-- Every step preserves the invariant `cancel_sent → cancel_requested`. -/
lemma cancelStep_preserves_inv (s : CancelState) (e : CancelEvent)
    (hinv : s.cancelSent = true → s.cancelRequested = true) :
    (cancelStep s e).1.cancelSent = true → (cancelStep s e).1.cancelRequested = true := by
  obtain ⟨cr, cs, dn, rid⟩ := s
  cases e with
  | userCancel =>
      cases cr <;> cases cs <;> cases dn <;> cases rid <;>
        simp_all [cancelStep, userCancelStep]
  | dispatch status mid =>
      cases cr <;> cases cs <;>
        by_cases hp : status = STATUS_PENDING <;>
          simp_all [cancelStep, dispatchCancelStep, hp]
  | settle => simp_all [cancelStep]

/-- Once both flags are set no step enqueues again, and the flags stay
set. -/
lemma cancelStep_sent_absorbing (s : CancelState) (e : CancelEvent)
    (hs : s.cancelSent = true) (hr : s.cancelRequested = true) :
    (cancelStep s e).2 = none ∧ (cancelStep s e).1.cancelSent = true ∧
    (cancelStep s e).1.cancelRequested = true := by
  obtain ⟨cr, cs, dn, rid⟩ := s
  cases hs
  cases hr
  cases e with
  | userCancel => cases dn <;> cases rid <;> simp [cancelStep, userCancelStep]
  | dispatch status mid =>
      by_cases hp : status = STATUS_PENDING <;> simp [cancelStep, dispatchCancelStep, hp]
  | settle => simp [cancelStep]

/-- After both flags are set, no further enqueues happen at all. -/
lemma cancelEnqueues_zero (evs : List CancelEvent) :
    ∀ s : CancelState, s.cancelSent = true → s.cancelRequested = true →
      cancelEnqueues s evs = 0 := by
  induction evs with
  | nil => intro s _ _; rfl
  | cons e evs ih =>
      intro s hs hr
      obtain ⟨h0, h1, h2⟩ := cancelStep_sent_absorbing s e hs hr
      simp only [cancelEnqueues, h0, Option.isSome_none, Bool.false_eq_true, if_false,
        ih (cancelStep s e).1 h1 h2]

/-- Key invariant of the cancel protocol: as long as `cancel_sent`
implies `cancel_requested`, at most one enqueue can still happen. -/
lemma cancelEnqueues_le (evs : List CancelEvent) :
    ∀ s : CancelState, (s.cancelSent = true → s.cancelRequested = true) →
      cancelEnqueues s evs ≤ 1 := by
  induction evs with
  | nil => intro s _; simp [cancelEnqueues]
  | cons e evs ih =>
      intro s hinv
      by_cases hq : (cancelStep s e).2 = none
      · have h := ih (cancelStep s e).1 (cancelStep_preserves_inv s e hinv)
        simpa [cancelEnqueues, hq] using h
      · obtain ⟨h1, h2⟩ := cancelStep_enqueue_flags s e hq
        have h0 := cancelEnqueues_zero evs (cancelStep s e).1 h1 h2
        have hq2 : ((cancelStep s e).2).isSome = true := Option.isSome_iff_ne_none.mpr hq
        simp [cancelEnqueues, hq2, h0]

/-- C4: starting from a fresh future, any serialized sequence of user
cancels, dispatcher status-handling events and settlement produces at
most one cancel-queue enqueue — hence at most one DELETE carries the
future's remote id in response to `cancel()`, whether it was called
before or after the remote id became known; moreover the dispatcher
enqueues a cancel exactly when `cancel_requested` is set, `cancel_sent`
is not yet set and the status is PENDING, and it sets `cancel_sent`
whenever `cancel_requested` is set. -/
theorem C4_at_most_one_cancel :
    (∀ evs : List CancelEvent, cancelEnqueues {} evs ≤ 1) ∧
    (∀ (s : CancelState) (status mid : String),
      ((dispatchCancelStep s status mid).2 ≠ none ↔
        s.cancelRequested = true ∧ s.cancelSent = false ∧ status = STATUS_PENDING) ∧
      (s.cancelRequested = true → (dispatchCancelStep s status mid).1.cancelSent = true)) := by
  constructor
  · intro evs
    exact cancelEnqueues_le evs {} (by intro h; exact absurd h (by simp))
  · intro s status mid
    obtain ⟨cr, cs, dn, rid⟩ := s
    constructor
    · cases cr <;> cases cs <;>
        by_cases hp : status = STATUS_PENDING <;>
          simp [dispatchCancelStep, hp]
    · intro hr
      cases hr
      cases cs <;>
        by_cases hp : status = STATUS_PENDING <;>
          simp [dispatchCancelStep, hp]

/-- C4 witness: a deferred cancel followed by two PENDING dispatches
produces at most one enqueue; the dispatcher guard and the setting of
`cancel_sent` at a concrete state. -/
theorem C4_at_most_one_cancel_witness :
    cancelEnqueues {} [.userCancel, .dispatch "PENDING" "test-id", .dispatch "PENDING" "test-id"] ≤ 1 ∧
    (dispatchCancelStep ⟨true, false, false, none⟩ "PENDING" "xyz").2 ≠ none ∧
    (dispatchCancelStep ⟨true, false, false, none⟩ "PENDING" "xyz").1.cancelSent = true :=
  ⟨C4_at_most_one_cancel.1 _,
   (C4_at_most_one_cancel.2 ⟨true, false, false, none⟩ "PENDING" "xyz").1.mpr ⟨rfl, rfl, rfl⟩,
   (C4_at_most_one_cancel.2 ⟨true, false, false, none⟩ "PENDING" "xyz").2 rfl⟩

/-- HTTP result of the submission POST in Client._do_submit_problems. -/
inductive SubmitHttpResult where
  | timeout
  | response (statusCode : ℕ) (parseOk : Bool) (records : List Message)
deriving DecidableEq

/-- The error with which the `except` handler of
Client._do_submit_problems (client.py lines 1008-1016) fails every batch
member, or `none` when the response is dispatched record by record.  A
network timeout raises RequestTimeout; 401 raises
SolverAuthenticationError, which is stored unwrapped; every other raised
exception — an HTTP error (status ≥ 400) or a body parse failure — is
wrapped in `IOError` before being stored. -/
def submitBatchError : SubmitHttpResult → Option PyExc
  | .timeout => some (.ioError .requestTimeout)
  | .response code parseOk _ =>
    if code = 401 then some .solverAuth
    else if 400 ≤ code ∧ code < 600 then some (.ioError (.httpError code))
    else if parseOk = false then some (.ioError .parseError)
    else none

/-- Per-member outcome of one Client._do_submit_problems iteration:
either failed via `_set_error` or forwarded to the status dispatcher. -/
inductive SubmitMemberOutcome where
  | failed (e : PyExc)
  | dispatched
deriving DecidableEq

/-- Outcome of one submission iteration for each member of the batch
(client.py lines 992-1022): on any raised exception every member is
failed with the same stored error; otherwise each is dispatched. -/
def submitProcess {α : Type} (r : SubmitHttpResult) (batch : List α) :
    List (α × SubmitMemberOutcome) :=
  match submitBatchError r with
  | some e => batch.map fun b => (b, .failed e)
  | none => batch.map fun b => (b, .dispatched)

/-- C5 counterexample: a network timeout on the submission POST fails
the batch member with `IOError(RequestTimeout(...))` — an error of the
I/O kind, not of the timeout kind. -/
theorem C5_counterexample :
    submitProcess .timeout [0] = [(0, .failed (.ioError .requestTimeout))] ∧
    (PyExc.ioError .requestTimeout).kind = ErrorKind.io ∧
    ErrorKind.io ≠ ErrorKind.timeout := by
  decide

/-- C5 (amended): when the submission POST raises a network timeout,
every member of the batch is failed with the same error, namely an I/O
error wrapping the RequestTimeout — so the timeout is recorded only as
the wrapped cause and is not distinguished from the I/O catch-all by the
stored error's kind. -/
theorem C5_submit_timeout {α : Type} (batch : List α) :
    submitProcess .timeout batch =
      batch.map (fun b => (b, .failed (.ioError .requestTimeout))) ∧
    (PyExc.ioError .requestTimeout).kind = ErrorKind.io := by
  exact ⟨rfl, rfl⟩

/-- The batch-building loop of Client._do_submit_problems (client.py
lines 985-990): `ready_problems = [item]`, then while
`len(ready_problems) < _SUBMIT_BATCH_SIZE` pop one more item
non-blockingly, stopping when the queue is empty.  Returns the batch and
what is left on the queue. -/
def drainLoop {α : Type} (cap : ℕ) : List α → List α → List α × List α
  | ready, [] => (ready, [])
  | ready, q :: qs =>
    if ready.length < cap then drainLoop cap (ready ++ [q]) qs
    else (ready, q :: qs)

/-- One batch build: the blocking first item plus the non-blocking
drain. -/
def submitBatch {α : Type} (first : α) (queued : List α) : List α × List α :=
  drainLoop SUBMIT_BATCH_SIZE [first] queued

/-- Closed form of the drain loop. -/
lemma drainLoop_eq {α : Type} (cap : ℕ) :
    ∀ (queued ready : List α), drainLoop cap ready queued =
      (ready ++ queued.take (cap - ready.length), queued.drop (cap - ready.length)) := by
  intro queued
  induction queued with
  | nil => intro ready; simp [drainLoop]
  | cons q qs ih =>
      intro ready
      by_cases h : ready.length < cap
      · have hk : cap - ready.length = (cap - (ready.length + 1)) + 1 := by omega
        have hlen : (ready ++ [q]).length = ready.length + 1 := by simp
        simp only [drainLoop, if_pos h, ih (ready ++ [q]), hlen, hk, List.take_succ_cons,
          List.drop_succ_cons, List.append_assoc, List.singleton_append]
      · have hk : cap - ready.length = 0 := by omega
        simp [drainLoop, if_neg h, hk]

/-- C6 counterexample: with 25 items waiting on the queue beyond the
blocking first item, the built batch holds 20 problems, not 21. -/
theorem C6_counterexample :
    (submitBatch 0 (List.range 25)).1.length = 20 ∧ (20 : ℕ) ≠ 21 := by
  decide

/-- C6 (amended): after blocking on the first queued item, the
submission worker drains at most `_SUBMIT_BATCH_SIZE - 1 = 19` further
items non-blockingly, so a batch holds the first item plus the next
`min 19 queued` items and never more than `_SUBMIT_BATCH_SIZE = 20`
problems. -/
theorem C6_submit_batch_size {α : Type} (first : α) (queued : List α) :
    submitBatch first queued =
      (first :: queued.take (SUBMIT_BATCH_SIZE - 1), queued.drop (SUBMIT_BATCH_SIZE - 1)) ∧
    (submitBatch first queued).1.length ≤ SUBMIT_BATCH_SIZE := by
  have h := drainLoop_eq SUBMIT_BATCH_SIZE queued [first]
  constructor
  · simpa [submitBatch, SUBMIT_BATCH_SIZE] using h
  · simp only [submitBatch, h]
    simp [List.length_take, SUBMIT_BATCH_SIZE]

/-- The key/solver pairs built at client.py line 876
(`solvers_with_keys`).  A key is `sort_key(solver)`, with Python `None`
modelled as `⊥ : WithBot K`; for a string `order_by` the key is
`pluck(solver, order_by, None)`, for a callable it is the callable
itself, both abstracted here as the function `key`. -/
def solversWithKeys {α K : Type} (key : α → WithBot K) (solvers : List α) :
    List (WithBot K × α) :=
  solvers.map fun s => (key s, s)

/-- `solvers_with_invalid_keys` (client.py line 877). -/
def solversWithInvalidKeys {α K : Type} [DecidableEq K] (key : α → WithBot K)
    (solvers : List α) : List (WithBot K × α) :=
  (solversWithKeys key solvers).filter fun p => decide (p.1 = ⊥)

/-- `solvers_with_valid_keys` (client.py line 878). -/
def solversWithValidKeys {α K : Type} [DecidableEq K] (key : α → WithBot K)
    (solvers : List α) : List (WithBot K × α) :=
  (solversWithKeys key solvers).filter fun p => decide (¬(p.1 = ⊥))

/-- `solvers_with_valid_keys.sort(key=operator.itemgetter(0))` (client.py
line 879).  Python's `list.sort` is stable; it is modelled by insertion
sort on the first component, which is stable, and a stable sort by key
is extensionally unique. -/
def solversWithValidKeysSorted {α K : Type} [LinearOrder K] (key : α → WithBot K)
    (solvers : List α) : List (WithBot K × α) :=
  List.insertionSort (fun p q => p.1 ≤ q.1) (solversWithValidKeys key solvers)

/-- The sort-and-reverse step of Client.get_solvers (client.py lines
874-886) for a non-null sort key: solvers with an undefined (`None`)
key are split off, the others are sorted stably by key, the `None`-keyed
ones are appended (line 880), and for a descending sort (`order_by`
prefixed with `-`) the whole list is reversed as a separate final step
(lines 884-885). -/
def getSolversSort {α K : Type} [LinearOrder K] (key : α → WithBot K) (desc : Bool)
    (solvers : List α) : List α :=
  let result :=
    (solversWithValidKeysSorted key solvers ++ solversWithInvalidKeys key solvers).map Prod.snd
  if desc then result.reverse else result

/-- Do all solvers whose key is `None` sit at the end of the list? -/
def noneKeysLastB {α K : Type} [DecidableEq K] (key : α → WithBot K) : List α → Bool
  | [] => true
  | x :: xs =>
    if key x = ⊥ then xs.all fun y => decide (key y = ⊥) else noneKeysLastB key xs

/-- Inserting a pair into a list keeps the sublist of pairs with any
given key: the new pair lands in front of the equal-keyed ones. -/
lemma filter_orderedInsert_key {α K : Type} [LinearOrder K] (w : WithBot K)
    (a : WithBot K × α) (l : List (WithBot K × α)) :
    (l.orderedInsert (fun p q => p.1 ≤ q.1) a).filter (fun p => decide (p.1 = w)) =
      if a.1 = w then a :: l.filter (fun p => decide (p.1 = w))
      else l.filter (fun p => decide (p.1 = w)) := by
  induction l with
  | nil =>
      by_cases haw : a.1 = w <;> simp [List.orderedInsert, List.filter, haw]
  | cons b l ih =>
      by_cases hr : a.1 ≤ b.1
      · simp only [List.orderedInsert, if_pos hr]
        by_cases haw : a.1 = w <;> by_cases hbw : b.1 = w <;>
          simp [List.filter, haw, hbw]
      · simp only [List.orderedInsert, if_neg hr]
        by_cases hbw : b.1 = w
        · by_cases haw : a.1 = w
          · exact absurd (le_of_eq (haw.trans hbw.symm)) hr
          · simp [List.filter, hbw, haw, ih]
        · by_cases haw : a.1 = w <;> simp [List.filter, hbw, haw, ih]

/-- Insertion sort by key is stable: the sublist of pairs carrying any
given key is untouched. -/
lemma filter_insertionSort_key {α K : Type} [LinearOrder K] (w : WithBot K) :
    ∀ l : List (WithBot K × α),
      (List.insertionSort (fun p q => p.1 ≤ q.1) l).filter (fun p => decide (p.1 = w)) =
        l.filter (fun p => decide (p.1 = w)) := by
  intro l
  induction l with
  | nil => rfl
  | cons a l ih =>
      simp only [List.insertionSort, filter_orderedInsert_key, ih]
      by_cases haw : a.1 = w <;> simp [List.filter, haw]

/-- Filtering the key/solver pairs by key and projecting is filtering
the solvers by key. -/
lemma filter_solversWithKeys_snd {α K : Type} [DecidableEq K] (key : α → WithBot K)
    (w : WithBot K) :
    ∀ l : List α,
      ((solversWithKeys key l).filter (fun p => decide (p.1 = w))).map Prod.snd =
        l.filter (fun s => decide (key s = w)) := by
  intro l
  induction l with
  | nil => rfl
  | cons a l ih =>
      by_cases h : key a = w <;>
        simp [solversWithKeys, List.filter, h, ih] <;>
        simpa [solversWithKeys] using ih

/-- Members of the key/solver pair list carry their own key. -/
lemma mem_solversWithKeys_fst {α K : Type} (key : α → WithBot K) (l : List α)
    (p : WithBot K × α) (hp : p ∈ solversWithKeys key l) : p.1 = key p.2 := by
  obtain ⟨s, _, rfl⟩ := List.mem_map.mp hp
  rfl

/-- Re-filtering by a stronger test drops an intermediate filter. -/
lemma filter_filter_of_imp {β : Type} (f g : β → Bool)
    (himp : ∀ x, f x = true → g x = true) :
    ∀ L : List β, (L.filter g).filter f = L.filter f := by
  intro L
  induction L with
  | nil => rfl
  | cons x L ih =>
      cases hg : g x with
      | true => rw [List.filter_cons, hg, if_pos rfl, List.filter_cons, List.filter_cons, ih]
      | false =>
          have hf : f x = false := by
            cases hf : f x
            · rfl
            · exact absurd (himp x hf) (by rw [hg]; exact Bool.noConfusion)
          rw [List.filter_cons, hg, if_neg (by simp), ih, List.filter_cons, hf, if_neg (by simp)]

/-- Filtering by a test incompatible with an earlier filter gives the
empty list. -/
lemma filter_filter_of_excl {β : Type} (f g : β → Bool)
    (hexcl : ∀ x, f x = true → g x = false) :
    ∀ L : List β, (L.filter g).filter f = [] := by
  intro L
  induction L with
  | nil => rfl
  | cons x L ih =>
      cases hg : g x with
      | true =>
          have hf : f x = false := by
            cases hf : f x
            · rfl
            · exact absurd (hexcl x hf) (by rw [hg]; exact Bool.noConfusion)
          rw [List.filter_cons, hg, if_pos rfl, List.filter_cons, hf, if_neg (by simp), ih]
      | false => rw [List.filter_cons, hg, if_neg (by simp), ih]

/-- The pair list underneath the ascending `get_solvers` output filters
by key exactly like the full pair list. -/
lemma sorted_append_invalid_filter {α K : Type} [LinearOrder K] (key : α → WithBot K)
    (l : List α) (w : WithBot K) :
    (solversWithValidKeysSorted key l ++ solversWithInvalidKeys key l).filter
        (fun p => decide (p.1 = w)) =
      (solversWithKeys key l).filter (fun p => decide (p.1 = w)) := by
  rw [List.filter_append, solversWithValidKeysSorted, filter_insertionSort_key,
    solversWithValidKeys, solversWithInvalidKeys]
  by_cases hw : w = (⊥ : WithBot K)
  · subst hw
    rw [filter_filter_of_excl (fun p : WithBot K × α => decide (p.1 = ⊥))
        (fun p => decide (¬(p.1 = ⊥))) (by
          intro x hx
          simp only [decide_eq_true_eq] at hx
          simp [hx]) (solversWithKeys key l),
      filter_filter_of_imp (fun p : WithBot K × α => decide (p.1 = ⊥))
        (fun p => decide (p.1 = ⊥)) (fun x hx => hx) (solversWithKeys key l)]
    rfl
  · rw [filter_filter_of_imp (fun p : WithBot K × α => decide (p.1 = w))
        (fun p => decide (¬(p.1 = ⊥))) (by
          intro x hx
          simp only [decide_eq_true_eq] at hx ⊢
          rw [hx]
          exact hw) (solversWithKeys key l),
      filter_filter_of_excl (fun p : WithBot K × α => decide (p.1 = w))
        (fun p => decide (p.1 = ⊥)) (by
          intro x hx
          simp only [decide_eq_true_eq] at hx
          simp only [decide_eq_false_iff_not]
          rw [hx]
          exact hw) (solversWithKeys key l)]
    simp

/-- Projecting a pair-list filter through `Prod.snd` commutes when each
pair carries its own key. -/
lemma map_snd_filter_key {α K : Type} [DecidableEq K] (key : α → WithBot K) (w : WithBot K) :
    ∀ L : List (WithBot K × α), (∀ p ∈ L, p.1 = key p.2) →
      (L.map Prod.snd).filter (fun s => decide (key s = w)) =
        (L.filter (fun p => decide (p.1 = w))).map Prod.snd := by
  intro L
  induction L with
  | nil => intro _; rfl
  | cons p L ih =>
      intro hmem
      have hp : p.1 = key p.2 := hmem p (List.mem_cons_self p L)
      have hrest : ∀ q ∈ L, q.1 = key q.2 := fun q hq => hmem q (List.mem_cons_of_mem p hq)
      by_cases h : key p.2 = w <;>
        simp [List.filter_cons, h, hp, ih hrest]

/-- Every member of the ascending pair list carries its own key. -/
lemma mem_sorted_append_invalid {α K : Type} [LinearOrder K] (key : α → WithBot K)
    (l : List α) (p : WithBot K × α)
    (hp : p ∈ solversWithValidKeysSorted key l ++ solversWithInvalidKeys key l) :
    p.1 = key p.2 := by
  rcases List.mem_append.mp hp with h | h
  · have hperm := List.perm_insertionSort (fun p q : WithBot K × α => p.1 ≤ q.1)
      (solversWithValidKeys key l)
    have hv : p ∈ solversWithValidKeys key l := hperm.mem_iff.mp h
    exact mem_solversWithKeys_fst key l p (List.mem_of_mem_filter hv)
  · exact mem_solversWithKeys_fst key l p (List.mem_of_mem_filter h)

/-- Stability of the ascending `get_solvers` sort: for every key value,
the solvers carrying it appear in the output in their original (API)
order. -/
lemma getSolversSort_stable {α K : Type} [LinearOrder K] (key : α → WithBot K)
    (l : List α) (w : WithBot K) :
    (getSolversSort key false l).filter (fun s => decide (key s = w)) =
      l.filter (fun s => decide (key s = w)) := by
  unfold getSolversSort
  simp only [Bool.false_eq_true, if_false]
  rw [map_snd_filter_key key w _ (mem_sorted_append_invalid key l),
    sorted_append_invalid_filter, filter_solversWithKeys_snd]

/-- A list made of non-`None`-keyed entries followed by `None`-keyed
entries has its `None` keys at the end. -/
lemma noneKeysLastB_append_of {α K : Type} [DecidableEq K] (key : α → WithBot K) :
    ∀ l1 l2 : List α, (∀ x ∈ l1, ¬(key x = ⊥)) → (∀ y ∈ l2, key y = ⊥) →
      noneKeysLastB key (l1 ++ l2) = true := by
  intro l1
  induction l1 with
  | nil =>
      intro l2 _ h2
      cases l2 with
      | nil => rfl
      | cons y ys =>
          have hy : key y = ⊥ := h2 y (List.mem_cons_self y ys)
          simp only [List.nil_append, noneKeysLastB, if_pos hy]
          rw [List.all_eq_true]
          intro z hz
          simp [h2 z (List.mem_cons_of_mem y hz)]
  | cons x xs ih =>
      intro l2 h1 h2
      have hx : ¬key x = ⊥ := h1 x (List.mem_cons_self x xs)
      simp only [List.cons_append, noneKeysLastB, if_neg hx]
      exact ih l2 (fun z hz => h1 z (List.mem_cons_of_mem x hz)) h2

/-- In the ascending `get_solvers` output all `None`-keyed solvers sit
at the end. -/
lemma noneKeysLast_asc {α K : Type} [LinearOrder K] (key : α → WithBot K) (l : List α) :
    noneKeysLastB key (getSolversSort key false l) = true := by
  unfold getSolversSort
  simp only [Bool.false_eq_true, if_false, List.map_append]
  apply noneKeysLastB_append_of
  · intro x hx
    obtain ⟨p, hp, rfl⟩ := List.mem_map.mp hx
    have hv : p ∈ solversWithValidKeys key l :=
      (List.perm_insertionSort (fun p q : WithBot K × α => p.1 ≤ q.1)
        (solversWithValidKeys key l)).mem_iff.mp hp
    have h1 := List.of_mem_filter hv
    have h2 : p.1 = key p.2 := mem_solversWithKeys_fst key l p (List.mem_of_mem_filter hv)
    simp only [decide_eq_true_eq] at h1
    rw [← h2]
    exact h1
  · intro y hy
    obtain ⟨p, hp, rfl⟩ := List.mem_map.mp hy
    have h1 := List.of_mem_filter hp
    have h2 : p.1 = key p.2 := mem_solversWithKeys_fst key l p (List.mem_of_mem_filter hp)
    simp only [decide_eq_true_eq] at h1
    rw [← h2]
    exact h1

/-- The descending sort is the plain reversal of the ascending one. -/
lemma getSolversSort_desc_eq {α K : Type} [LinearOrder K] (key : α → WithBot K)
    (l : List α) :
    getSolversSort key true l = (getSolversSort key false l).reverse := by
  unfold getSolversSort
  simp

/-- C8 counterexample: with solver 2 carrying key 5 and solver 1 a
`None` key, a descending sort of the API order `[2, 1]` returns
`[1, 2]` — the `None`-keyed solver is placed first, not at the end. -/
theorem C8_counterexample :
    getSolversSort (fun n : ℕ => if n = 1 then (⊥ : WithBot ℕ) else ((5 : ℕ) : WithBot ℕ))
        true [2, 1] = [1, 2] ∧
    (if (1 : ℕ) = 1 then (⊥ : WithBot ℕ) else ((5 : ℕ) : WithBot ℕ)) = ⊥ ∧
    noneKeysLastB (fun n : ℕ => if n = 1 then (⊥ : WithBot ℕ) else ((5 : ℕ) : WithBot ℕ))
      (getSolversSort (fun n : ℕ => if n = 1 then (⊥ : WithBot ℕ) else ((5 : ℕ) : WithBot ℕ))
        true [2, 1]) = false := by
  decide

/-- C8 (amended): for every solver list and key function, the ascending
`get_solvers` sort (plain path or callable `order_by`) is stable —
solvers with equal keys keep the API order — and places every
`None`-keyed solver at the end; a `-`-prefixed (descending) `order_by`
reverses that entire list as a separate final step, so there the
`None`-keyed solvers come first and equal-keyed solvers appear in
reversed API order. -/
theorem C8_sort_stability {α K : Type} [LinearOrder K] (key : α → WithBot K)
    (l : List α) (w : WithBot K) :
    (getSolversSort key false l).filter (fun s => decide (key s = w)) =
      l.filter (fun s => decide (key s = w)) ∧
    noneKeysLastB key (getSolversSort key false l) = true ∧
    getSolversSort key true l = (getSolversSort key false l).reverse :=
  ⟨getSolversSort_stable key l w, noneKeysLast_asc key l, getSolversSort_desc_eq key l⟩

/-- Python values appearing in solver descriptors and filter arguments:
`None`, booleans, integers, strings, lists (tuples are modelled as
lists), and string-keyed dicts. -/
inductive PVal where
  | pnone
  | pbool (b : Bool)
  | pint (n : ℤ)
  | pstr (s : String)
  | plist (l : List PVal)
  | pdict (l : List (String × PVal))

mutual
/-- Python `==` on the modelled values (structural; dict equality is
modelled order-sensitively, which nothing here exercises). -/
def pyEq : PVal → PVal → Bool
  | .pnone, .pnone => true
  | .pbool a, .pbool b => a == b
  | .pint a, .pint b => a == b
  | .pstr a, .pstr b => a == b
  | .plist a, .plist b => pyEqL a b
  | .pdict a, .pdict b => pyEqD a b
  | _, _ => false
/-- Elementwise `pyEq` on lists. -/
def pyEqL : List PVal → List PVal → Bool
  | [], [] => true
  | x :: xs, y :: ys => pyEq x y && pyEqL xs ys
  | _, _ => false
/-- Elementwise `pyEq` on dict entries. -/
def pyEqD : List (String × PVal) → List (String × PVal) → Bool
  | [], [] => true
  | (k1, x) :: xs, (k2, y) :: ys => k1 == k2 && pyEq x y && pyEqD xs ys
  | _, _ => false
end

/-- Python `is None`. -/
def PVal.isNone : PVal → Bool
  | .pnone => true
  | _ => false

/-- Python truthiness, used by the `available` operator (`if val`). -/
def pyTruthy : PVal → Bool
  | .pnone => false
  | .pbool b => b
  | .pint n => n != 0
  | .pstr s => s.length != 0
  | .plist l => l.length != 0
  | .pdict l => l.length != 0

/-- Lexicographic code-point comparison of character lists, matching
Python string `<`. -/
def strLtCh : List Char → List Char → Bool
  | [], [] => false
  | [], _ :: _ => true
  | _ :: _, [] => false
  | a :: as, b :: bs => if a < b then true else if b < a then false else strLtCh as bs

/-- Python `<` on the modelled values: numbers and strings compare;
anything else raises TypeError (`none`). -/
def pyLt : PVal → PVal → Option Bool
  | .pint a, .pint b => some (decide (a < b))
  | .pstr a, .pstr b => some (strLtCh a.toList b.toList)
  | _, _ => none

/-- Python `<=`. -/
def pyLe : PVal → PVal → Option Bool
  | .pint a, .pint b => some (decide (a ≤ b))
  | .pstr a, .pstr b => some (!strLtCh b.toList a.toList)
  | _, _ => none

/-- Python `>`. -/
def pyGt (a b : PVal) : Option Bool := pyLt b a

/-- Python `>=`. -/
def pyGe (a b : PVal) : Option Bool := pyLe b a

/-- `min(l)`/`max(l)` over a 2-element Python list of numbers, as used
by `covers_op`; any other shape raises (`none`). -/
def pyPairMinMax : List PVal → Option (ℤ × ℤ)
  | [.pint a, .pint b] => some (min a b, max a b)
  | _ => none

/-- covers_op (client.py lines 739-754): does the LHS 2-element range
fully cover the RHS range or item?  A non-range LHS raises ValueError,
non-numeric comparisons raise TypeError; raises are `none`. -/
def covers_op : PVal → PVal → Option Bool
  | .plist prop, val =>
    match pyPairMinMax prop with
    | none => none
    | some (llo, lhi) =>
      match val with
      | .plist l =>
        if l.length = 2 then
          match pyPairMinMax l with
          | none => none
          | some (rlo, rhi) => some (decide (llo ≤ rlo) && decide (lhi ≥ rhi))
        else none
      | .pint v => some (decide (llo ≤ v) && decide (v ≤ lhi))
      | _ => none
  | _, _ => none

/-- within_op (client.py lines 756-761): inverse of covers (the
try/except merely rewords the ValueError). -/
def within_op (prop val : PVal) : Option Bool := covers_op val prop

/-- The `in` operator (client.py line 793): plain Python membership
`prop in val` over a container RHS — notably not guarded by
`with_valid_lhs`. -/
def in_op : PVal → PVal → Option Bool
  | prop, .plist l => some (l.any fun x => pyEq x prop)
  | _, _ => none

/-- The `contains` core (client.py line 794): `val in prop` over a
container LHS. -/
def contains_core : PVal → PVal → Option Bool
  | .plist l, val => some (l.any fun x => pyEq x val)
  | _, _ => none

/-- The `issubset` core (client.py line 796):
`_set(prop).issubset(_set(val))`.  `_set` (lines 763-770) materializes
an iterable as a set after converting list items to tuples, and its
`next(iter(iterable))` raises StopIteration on an empty iterable; sets
are modelled as lists with `pyEq`-membership. -/
def issubset_core : PVal → PVal → Option Bool
  | .plist a, .plist b =>
    if a.isEmpty || b.isEmpty then none
    else some (a.all fun x => b.any fun y => pyEq x y)
  | _, _ => none

/-- The `issuperset` core (client.py line 797). -/
def issuperset_core : PVal → PVal → Option Bool
  | .plist a, .plist b =>
    if a.isEmpty || b.isEmpty then none
    else some (b.all fun x => a.any fun y => pyEq x y)
  | _, _ => none

/-- The regex core `re.match("^{}$".format(val), prop)` (client.py line
788); the regex engine is abstracted as the oracle `rmatch pattern
text`. -/
def regex_core (rmatch : String → String → Bool) : PVal → PVal → Option Bool
  | .pstr prop, .pstr val => some (rmatch val prop)
  | _, _ => none

/-- The `available` operator (client.py line 787):
`prop is not None if val else prop is None`. -/
def available_op (prop val : PVal) : Option Bool :=
  some (if pyTruthy val then !prop.isNone else prop.isNone)

/-- with_valid_lhs (client.py lines 772-778): guard an operator so that
a `None` LHS yields `False` without invoking it. -/
def with_valid_lhs (op : PVal → PVal → Option Bool) (prop val : PVal) : Option Bool :=
  if prop.isNone then some false else op prop val

/-- The operator names of the `ops` table (client.py lines 781-798). -/
def opNames : List String :=
  ["lt", "lte", "gt", "gte", "eq", "available", "regex", "covers", "within", "in",
   "contains", "issubset", "issuperset"]

/-- The `ops` table (client.py lines 781-798).  `lt`, `lte`, `gt`,
`gte`, `regex`, `covers`, `within`, `contains`, `issubset` and
`issuperset` are wrapped by `with_valid_lhs`; `eq`, `available` and `in`
are not. -/
def opsApply (rmatch : String → String → Bool) (name : String) (prop val : PVal) :
    Option Bool :=
  if name = "lt" then with_valid_lhs pyLt prop val
  else if name = "lte" then with_valid_lhs pyLe prop val
  else if name = "gt" then with_valid_lhs pyGt prop val
  else if name = "gte" then with_valid_lhs pyGe prop val
  else if name = "eq" then some (pyEq prop val)
  else if name = "available" then available_op prop val
  else if name = "regex" then with_valid_lhs (regex_core rmatch) prop val
  else if name = "covers" then with_valid_lhs covers_op prop val
  else if name = "within" then with_valid_lhs within_op prop val
  else if name = "in" then in_op prop val
  else if name = "contains" then with_valid_lhs contains_core prop val
  else if name = "issubset" then with_valid_lhs issubset_core prop val
  else if name = "issuperset" then with_valid_lhs issuperset_core prop val
  else none

/-- Helper for `splitDots`: accumulate characters up to each dot. -/
def splitDotsGo : List Char → List Char → List (List Char)
  | [], acc => [acc.reverse]
  | c :: cs, acc =>
    if c = '.' then acc.reverse :: splitDotsGo cs [] else splitDotsGo cs (c :: acc)

/-- Python `path.split('.')`, over the character list. -/
def splitDots (s : String) : List String :=
  (splitDotsGo s.toList []).map fun cs => String.mk cs

mutual
/-- Modelled from the spec: `pluck` lives in dwave/cloud/utils.py, which
is not under src/.  Spec §4.7 describes the filter key as "a dotted path
into the solver descriptor" and mandates "Missing LHS treated as None":
pluck descends the dot-separated path through nested dicts and yields
the default (`None` at every call site modelled here) when any step is
missing. -/
def pluckSegs : PVal → List String → PVal
  | v, [] => v
  | .pdict d, k :: ks => pluckSegsD d k ks
  | _, _ :: _ => .pnone
/-- Lookup of one path segment among dict entries. -/
def pluckSegsD : List (String × PVal) → String → List String → PVal
  | [], _, _ => .pnone
  | (k2, v) :: rest, k, ks => if k2 == k then pluckSegs v ks else pluckSegsD rest k ks
end

/-- `pluck(obj, path, None)` on a dotted path string. -/
def pluck (v : PVal) (path : String) : PVal :=
  pluckSegs v (splitDots path)

/-- The parts of a solver descriptor read by the filter predicate: the
`derived_properties` names with their attribute values (`getattr`), and
the `parameters` and `properties` nested dicts. -/
structure SolverModel where
  derived : List (String × PVal)
  parameters : PVal
  properties : PVal

/-- `path in solver.derived_properties` together with
`getattr(solver, path)`. -/
def lookupDerived (l : List (String × PVal)) (k : String) : Option PVal :=
  (l.find? fun p => p.1 == k).map fun p => p.2

/-- The filter predicate of Client.get_solvers (client.py lines
800-832).  `query` is the filter key already split on `__`: when the
last segment is an operator name the rest is the property path,
otherwise the whole query is the path and the operator is implied —
`eq` for derived properties and properties, `available` for parameters;
a path found nowhere applies the operator (default `eq`) to `None`.
The parameters/properties branches test `pluck(…, path, None) is not
None`, so a stored `None` value also falls through. -/
def predicateEval (rmatch : String → String → Bool) (solver : SolverModel)
    (query : List String) (val : PVal) : Option Bool :=
  match query.getLast? with
  | none => none
  | some lastq =>
    let explicitOp := decide (lastq ∈ opNames)
    let opName : Option String := if explicitOp then some lastq else none
    let pathParts := if explicitOp then query.dropLast else query
    let path := String.intercalate "." pathParts
    match lookupDerived solver.derived path with
    | some dval => opsApply rmatch (opName.getD "eq") dval val
    | none =>
      let pv := pluck solver.parameters path
      if !pv.isNone then opsApply rmatch (opName.getD "available") pv val
      else
        let prv := pluck solver.properties path
        if !prv.isNone then opsApply rmatch (opName.getD "eq") prv val
        else opsApply rmatch (opName.getD "eq") .pnone val

/-- C9 counterexample: with `flag` absent everywhere in the solver
descriptor (so the LHS is `None`), the filter `flag__in=[None, False]`
evaluates to True, because the `in` operator is not guarded by
`with_valid_lhs` and `None in [None, False]` holds — the docstring
example `vfyc__in=[False, None]` (client.py line 720) relies on exactly
this. -/
theorem C9_counterexample :
    predicateEval (fun _ _ => false) ⟨[], .pdict [], .pdict []⟩ ["flag", "in"]
        (.plist [.pnone, .pbool false]) = some true ∧
    in_op .pnone (.plist [.pnone, .pbool false]) = some true ∧
    (some true : Option Bool) ≠ some false :=
  ⟨rfl, rfl, by decide⟩

/-- C9 (amended): a dotted path missing from the solver descriptor is
treated as `None`, and every `with_valid_lhs`-wrapped operator — `lt`,
`lte`, `gt`, `gte`, `regex`, `covers`, `within`, `contains`,
`issubset`, `issuperset` — yields false on a `None` LHS; the exceptions
are `available`, `eq` compared against `None`, and `in`, which is
unguarded and tests plain membership, so it yields true whenever the
RHS collection contains `None`. -/
theorem C9_none_lhs_semantics :
    (∀ (rmatch : String → String → Bool) (solver : SolverModel) (query parts : List String)
        (op : String) (val : PVal),
      query = parts ++ [op] → op ∈ opNames →
      lookupDerived solver.derived (String.intercalate "." parts) = none →
      (pluck solver.parameters (String.intercalate "." parts)).isNone = true →
      (pluck solver.properties (String.intercalate "." parts)).isNone = true →
      predicateEval rmatch solver query val = opsApply rmatch op PVal.pnone val) ∧
    (∀ (rmatch : String → String → Bool) (val : PVal),
      opsApply rmatch "lt" .pnone val = some false ∧
      opsApply rmatch "lte" .pnone val = some false ∧
      opsApply rmatch "gt" .pnone val = some false ∧
      opsApply rmatch "gte" .pnone val = some false ∧
      opsApply rmatch "regex" .pnone val = some false ∧
      opsApply rmatch "covers" .pnone val = some false ∧
      opsApply rmatch "within" .pnone val = some false ∧
      opsApply rmatch "contains" .pnone val = some false ∧
      opsApply rmatch "issubset" .pnone val = some false ∧
      opsApply rmatch "issuperset" .pnone val = some false ∧
      opsApply rmatch "eq" .pnone val = some val.isNone ∧
      opsApply rmatch "available" .pnone val = some (!pyTruthy val)) ∧
    (∀ (rmatch : String → String → Bool) (l : List PVal),
      opsApply rmatch "in" .pnone (.plist l) = some (l.any fun x => pyEq x .pnone)) := by
  refine ⟨?_, ?_, ?_⟩
  · intro rmatch solver query parts op val hq hop hd hpar hprop
    subst hq
    unfold predicateEval
    rw [List.getLast?_concat]
    have hexp : decide (op ∈ opNames) = true := decide_eq_true hop
    simp only [hexp, if_true, List.dropLast_concat, hd, hpar, Bool.not_true,
      Bool.false_eq_true, if_false, hprop, Option.getD_some]
  · intro rmatch val
    refine ⟨rfl, rfl, rfl, rfl, rfl, rfl, rfl, rfl, rfl, rfl, ?_, ?_⟩
    · show some (pyEq .pnone val) = some val.isNone
      cases val <;> rfl
    · show available_op .pnone val = some (!pyTruthy val)
      unfold available_op
      cases h : pyTruthy val <;> simp [h, PVal.isNone]
  · intro rmatch l
    rfl

/-- C9 witness: with an all-empty solver descriptor the filter
`missing__lt=5` reduces to `lt` applied to a `None` LHS, which is
false. -/
theorem C9_none_lhs_semantics_witness :
    predicateEval (fun _ _ => false) ⟨[], .pdict [], .pdict []⟩ ["missing", "lt"] (.pint 5) =
      opsApply (fun _ _ => false) "lt" .pnone (.pint 5) ∧
    opsApply (fun _ _ => false) "lt" .pnone (.pint 5) = some false :=
  ⟨C9_none_lhs_semantics.1 (fun _ _ => false) ⟨[], .pdict [], .pdict []⟩ _ ["missing"] "lt"
      (.pint 5) rfl (by decide) rfl rfl rfl,
   (C9_none_lhs_semantics.2.1 (fun _ _ => false) (.pint 5)).1⟩

/-- A queued future as seen by the poll frame builder: its remote id and
whether it is already done when popped from the queue. -/
structure QFuture where
  id : String
  isDone : Bool
deriving DecidableEq

/-- The `add` closure of Client._do_poll_problems (client.py lines
1223-1237): a future joins the frame only if its id is not already a
key of `frame_futures` and it is not done; otherwise it is acknowledged
and dropped.  `frame_futures` is an insertion-ordered dict keyed by
remote id, modelled as an association list. -/
def addFrame (frame : List (String × QFuture)) (f : QFuture) : List (String × QFuture) :=
  if (frame.any fun p => p.1 == f.id) || f.isDone then frame
  else frame ++ [(f.id, f)]

/-- The grouping loop of Client._do_poll_problems (client.py lines
1248-1261): while the frame holds fewer than `_STATUS_QUERY_SIZE`
futures, pop non-blockingly; a task scheduled within
`_POLL_GROUP_TIMEFRAME` of the earliest joins the frame, anything later
is pushed back and closes the frame, as does an empty queue. -/
def buildFrameLoop (frameEarliest : ℚ) :
    List (String × QFuture) → List (ℚ × QFuture) →
      List (String × QFuture) × List (ℚ × QFuture)
  | frame, [] => (frame, [])
  | frame, (sched, f) :: qs =>
    if frame.length < STATUS_QUERY_SIZE then
      if sched - frameEarliest ≤ POLL_GROUP_TIMEFRAME then
        buildFrameLoop frameEarliest (addFrame frame f) qs
      else (frame, (sched, f) :: qs)
    else (frame, (sched, f) :: qs)

/-- One frame build: the blocking first pop `(frame_earliest, future)`
at client.py line 1243 followed by the grouping loop. -/
def buildFrame (frameEarliest : ℚ) (first : QFuture) (queued : List (ℚ × QFuture)) :
    List (String × QFuture) × List (ℚ × QFuture) :=
  buildFrameLoop frameEarliest (addFrame [] first) queued

/-- Adding to a frame grows it by at most one entry. -/
lemma addFrame_length (frame : List (String × QFuture)) (f : QFuture) :
    (addFrame frame f).length ≤ frame.length + 1 := by
  unfold addFrame
  split
  · omega
  · simp

/-- Adding preserves distinctness of the frame's ids. -/
lemma addFrame_nodup (frame : List (String × QFuture)) (f : QFuture)
    (h : (frame.map Prod.fst).Nodup) : ((addFrame frame f).map Prod.fst).Nodup := by
  unfold addFrame
  split
  · exact h
  · next hcond =>
      have hany : (frame.any fun p => p.1 == f.id) = false := by
        rcases Bool.or_eq_false_iff.mp (Bool.not_eq_true _ |>.mp hcond) with ⟨h1, _⟩
        exact h1
      have hnotmem : f.id ∉ frame.map Prod.fst := by
        intro hmem
        obtain ⟨p, hp, hfst⟩ := List.mem_map.mp hmem
        have := List.any_eq_false.mp hany p hp
        simp [hfst] at this
      simp only [List.map_append, List.map_cons, List.map_nil]
      rw [List.nodup_append]
      exact ⟨h, List.nodup_singleton _, by
        intro a ha hb
        simp only [List.mem_singleton] at hb
        exact hnotmem (hb ▸ ha)⟩

/-- Adding preserves the all-not-done property of the frame. -/
lemma addFrame_not_done (frame : List (String × QFuture)) (f : QFuture)
    (h : ∀ p ∈ frame, p.2.isDone = false) :
    ∀ p ∈ addFrame frame f, p.2.isDone = false := by
  unfold addFrame
  split
  · exact h
  · next hcond =>
      have hdone : f.isDone = false := by
        rcases Bool.or_eq_false_iff.mp (Bool.not_eq_true _ |>.mp hcond) with ⟨_, h2⟩
        exact h2
      intro p hp
      rcases List.mem_append.mp hp with hin | hin
      · exact h p hin
      · simp only [List.mem_singleton] at hin
        rw [hin]
        exact hdone

/-- The grouping loop keeps the frame within the size bound, with
distinct ids and no done future. -/
lemma buildFrameLoop_props (fe : ℚ) :
    ∀ (qs : List (ℚ × QFuture)) (frame : List (String × QFuture)),
      frame.length ≤ STATUS_QUERY_SIZE →
      (frame.map Prod.fst).Nodup →
      (∀ p ∈ frame, p.2.isDone = false) →
      (buildFrameLoop fe frame qs).1.length ≤ STATUS_QUERY_SIZE ∧
      ((buildFrameLoop fe frame qs).1.map Prod.fst).Nodup ∧
      (∀ p ∈ (buildFrameLoop fe frame qs).1, p.2.isDone = false) := by
  intro qs
  induction qs with
  | nil => intro frame h1 h2 h3; exact ⟨h1, h2, h3⟩
  | cons t qs ih =>
      intro frame h1 h2 h3
      obtain ⟨sched, f⟩ := t
      by_cases hlen : frame.length < STATUS_QUERY_SIZE
      · by_cases hwin : sched - fe ≤ POLL_GROUP_TIMEFRAME
        · have hlen2 : (addFrame frame f).length ≤ STATUS_QUERY_SIZE := by
            have := addFrame_length frame f
            omega
          have h := ih (addFrame frame f) hlen2 (addFrame_nodup frame f h2)
            (addFrame_not_done frame f h3)
          simp only [buildFrameLoop]
          rw [if_pos hlen, if_pos hwin]
          exact h
        · simp only [buildFrameLoop]
          rw [if_pos hlen, if_neg hwin]
          exact ⟨h1, h2, h3⟩
      · simp only [buildFrameLoop]
        rw [if_neg hlen]
        exact ⟨h1, h2, h3⟩

/-- C10: every poll frame holds at most `_STATUS_QUERY_SIZE = 100`
futures, each remote id at most once (duplicates are acknowledged and
dropped), and no future that was already done when popped — so a poll
GET queries at most 100 distinct ids and never the same id twice. -/
theorem C10_poll_frame (fe : ℚ) (first : QFuture) (queued : List (ℚ × QFuture)) :
    (buildFrame fe first queued).1.length ≤ STATUS_QUERY_SIZE ∧
    ((buildFrame fe first queued).1.map Prod.fst).Nodup ∧
    (∀ p ∈ (buildFrame fe first queued).1, p.2.isDone = false) ∧
    STATUS_QUERY_SIZE = 100 := by
  have h0 : ([] : List (String × QFuture)).length ≤ STATUS_QUERY_SIZE := by
    simp [STATUS_QUERY_SIZE]
  have hlen : (addFrame [] first).length ≤ STATUS_QUERY_SIZE := by
    have := addFrame_length [] first
    have : (addFrame [] first).length ≤ 1 := by simpa using this
    simp [STATUS_QUERY_SIZE]
    omega
  have h := buildFrameLoop_props fe queued (addFrame [] first) hlen
    (addFrame_nodup [] first (by simp))
    (addFrame_not_done [] first (by simp))
  exact ⟨h.1, h.2.1, h.2.2, rfl⟩

/-- C10 witness: a frame built from a not-done first future and a done
queued future contains the first future, which is not done, and at most
100 entries. -/
theorem C10_poll_frame_witness :
    ((("a" : String), (⟨"a", false⟩ : QFuture)).2.isDone = false) ∧
    (buildFrame 0 ⟨"a", false⟩ []).1.length ≤ STATUS_QUERY_SIZE :=
  ⟨(C10_poll_frame 0 ⟨"a", false⟩ []).2.2.1 ("a", ⟨"a", false⟩) (by simp [buildFrame,
      buildFrameLoop, addFrame]),
   (C10_poll_frame 0 ⟨"a", false⟩ []).1⟩

end DwaveClient
